import Mathlib

/-!
Verification of the circadian-scp-upload daily transfer engine.

This file shallowly embeds the Python sources under `src/` into Lean:

* `screener.py` — the `File`/`Directory` data model, the remote stdout
  parser of `screen_remote_directory`, and `compare_directory_screens`;
* `utils.py` — the dated-regex machinery (`filename_is_ambiguous_for_dated_regex`,
  `file_or_dir_name_to_date`), `get_src_dates`, `UploadMeta` and `TwinFileLock`;
* `client.py` — the per-item upload algorithms `__upload_date_directory`
  and `__upload_date_files` of `DailyTransferClient`.

Conventions of the embedding:

* Python strings are Lean `String`/`List Char`; MD5 digests are modelled as
  the hashed byte sequence itself (an injective-hash abstraction), so two
  checksums are equal exactly when the hashed byte streams are equal.
* The wall clock (`datetime.datetime.now()`) is an explicit parameter
  consisting of the current day number and the current hour.
* Dated regexes (strings such as "^.*%Y%m%d.*$") are represented as token
  sequences (`SpecTok`): literal characters, `.`, `.*`, and the three date
  fields.  The leading `^` and trailing `$` required by the validator are
  implicit: matching is anchored.  The regex substitution, trimming and
  `re.findall` logic of `utils.py` is reproduced on these tokens with
  Python's leftmost, non-overlapping, greedy matching semantics.
* Stateful code is modelled as explicit state passing; the upload loops of
  `client.py` additionally produce an event trace (puts, abort polls, local
  removals, lock transitions) so that temporal claims can be stated.
* Fallible code returns `Except`/`Option`; an uncaught Python exception
  (including a failed `assert`) is an `Except.error`.
-/

namespace Circadian

/-! ## The screener data model (`screener.py`)

`File` mirrors the pydantic model: `__eq__` and `__hash__` are over all
three fields, which is exactly structure equality in Lean. -/

structure File where
  filesize : Int
  md5sum : String
  relative_path : String
deriving DecidableEq, Repr

/-- Python `str.split(sep)` for a single-character separator: split into the
(non-empty) list of chunks between occurrences of `sep`. -/
def splitOnChar (sep : Char) : List Char → List (List Char)
  | [] => [[]]
  | c :: cs =>
    let r := splitOnChar sep cs
    if c = sep then [] :: r
    else
      match r with
      | [] => [[c]]
      | h :: t => (c :: h) :: t

/-- Python `sep.join(parts)`. -/
def joinWith (sep : String) : List String → String
  | [] => ""
  | [x] => x
  | x :: xs => x ++ sep ++ joinWith sep xs

/-- `File.subdirectory` from `screener.py`: count the "/" characters of
`relative_path`; a count of 1 yields `None`, anything else yields
`"/".join(relative_path.split("/")[:-1])`. -/
def File.subdirectory (f : File) : Option String :=
  let file_depth := f.relative_path.toList.count '/'
  if file_depth = 1 then none
  else
    some (joinWith "/"
      (((splitOnChar '/' f.relative_path.toList).dropLast).map String.mk))

/-- A `Directory` is the pydantic model holding a list of files. -/
structure Directory where
  files : List File
deriving DecidableEq, Repr

/-- `Directory.get_subdirectories` from `screener.py`: the set of
`file.subdirectory()` values that are not `None`. -/
def Directory.get_subdirectories (d : Directory) : Finset String :=
  (d.files.filterMap File.subdirectory).toFinset

/-- `compare_directory_screens` from `screener.py`: build Python sets from
both file lists and return `(src ∩ dst, src − dst)`. -/
def compare_directory_screens (src_dir dst_dir : Directory) :
    Finset File × Finset File :=
  let src_files := src_dir.files.toFinset
  let dst_files := dst_dir.files.toFinset
  (src_files ∩ dst_files, src_files \ dst_files)

/-! ## The remote inventory parser (`screen_remote_directory`)

We embed the stdout-processing part of `screen_remote_directory`: the shell
command's output arrives as one string; the code strips it, requires the
`--- done ---` sentinel as the last line, splits every data line on the
two-space separator into exactly three fields, and collects `File` values.
A failed Python `assert` (or a failed `int()` conversion) is a fatal
`Except.error`. -/

/-- Python `str.strip(" \t\n")`: remove the given characters from both ends. -/
def pyStrip (s : String) : String :=
  let ws : List Char := [' ', '\t', '\n']
  let l := s.toList.dropWhile (· ∈ ws)
  String.mk ((l.reverse.dropWhile (· ∈ ws)).reverse)

/-- Python `str.split(sep)` for a non-empty separator, fuelled by the
string length (every step consumes at least one character): greedy
left-to-right scan for non-overlapping separator occurrences. -/
def splitOnSeqF (sep : List Char) : Nat → List Char → List (List Char)
  | _, [] => [[]]
  | 0, s => [s]
  | fuel + 1, c :: s' =>
    if sep.isPrefixOf (c :: s') then
      [] :: splitOnSeqF sep fuel ((c :: s').drop sep.length)
    else
      match splitOnSeqF sep fuel s' with
      | [] => [[c]]
      | h :: t => (c :: h) :: t

def splitOnSeq (sep s : List Char) : List (List Char) :=
  splitOnSeqF sep (s.length + 1) s

/-- Python `str.split(sep)` on strings. -/
def pySplit (sep s : String) : List String :=
  (splitOnSeq sep.toList s.toList).map String.mk

/-- The numeric value of a non-empty all-digit character list. -/
def digitsToNat : List Char → Option Nat
  | [] => none
  | ds =>
    if ds.all (·.isDigit) then
      some (ds.foldl (fun a c => 10 * a + (c.toNat - 48)) 0)
    else none

/-- Python `int(s)`: strip surrounding whitespace, allow one optional sign,
then require decimal digits (digit-grouping underscores are not modelled;
they never occur in `stat -c %s` output). -/
def pyInt (s : String) : Option Int :=
  let ws : List Char := [' ', '\t', '\n', '\r']
  let l := (s.toList.dropWhile (· ∈ ws)).reverse.dropWhile (· ∈ ws) |>.reverse
  match l with
  | '+' :: ds => (digitsToNat ds).map Int.ofNat
  | '-' :: ds => (digitsToNat ds).map (fun n => -(n : Int))
  | ds => (digitsToNat ds).map Int.ofNat

/-- Stable insertion into a sorted list (used to model Python `sorted`). -/
def insertSorted (lt : α → α → Bool) (x : α) : List α → List α
  | [] => [x]
  | y :: ys => if lt y x then y :: insertSorted lt x ys else x :: y :: ys

/-- Stable sort by a strict comparison, modelling Python `sorted`. -/
def sortBy (lt : α → α → Bool) : List α → List α
  | [] => []
  | x :: xs => insertSorted lt x (sortBy lt xs)

/-- Python string comparison: lexicographic by code point (the order used
by `sorted` on filenames). -/
def listLt : List Char → List Char → Bool
  | [], [] => false
  | [], _ :: _ => true
  | _ :: _, [] => false
  | c :: cs, d :: ds =>
    if c.toNat < d.toNat then true
    else if d.toNat < c.toNat then false
    else listLt cs ds

def strLt (a b : String) : Bool := listLt a.toList b.toList

/-- The comparison used by `sorted` on `File` values: `File.__lt__` compares
only `relative_path`. -/
def fileLt (f g : File) : Bool := strLt f.relative_path g.relative_path

/-- One data line of the remote inventory output: split on the two-space
separator, require exactly three fields, convert the size with `int`, strip
the first two characters (`./`) from the path, and drop the two reserved
names.  `Except.error` models the fatal `assert`/`ValueError`. -/
def parseDataLine (line : String) : Except String (Option File) :=
  match pySplit "  " line with
  | [a, b, c] =>
    match pyInt a with
    | some n =>
      let relative_path := String.mk (c.toList.drop 2)
      if relative_path = ".do-not-touch" ∨ relative_path = "upload-meta.json" then
        .ok none
      else .ok (some ⟨n, b, relative_path⟩)
    | none => .error ("invalid literal for int: " ++ a)
  | _ => .error ("Unexpected line: " ++ line)

/-- Parse all data lines, propagating the first fatal error. -/
def collectFiles : List String → Except String (List File)
  | [] => .ok []
  | l :: ls =>
    match parseDataLine l with
    | .error e => .error e
    | .ok none => collectFiles ls
    | .ok (some f) => (collectFiles ls).map (f :: ·)

/-- The stdout-processing of `screen_remote_directory`: strip the output,
split into lines, require the sentinel as the last line (otherwise fail
fatally — never return a partial inventory), parse the data lines, and
return the de-duplicated files sorted by `relative_path`. -/
def screen_remote_stdout (stdout : String) : Except String Directory :=
  let lines := pySplit "\n" (pyStrip stdout)
  if lines.getLast? = some "--- done ---" then
    (collectFiles lines.dropLast).map (fun fs => ⟨sortBy fileLt fs.dedup⟩)
  else .error "Command did not finish"

/-! ## The `TwinFileLock` protocol (`utils.py`)

The lock state records whether the local advisory lock is held, whether the
local sentinel file `<local_dir>/.do-not-touch` exists, and whether the
remote `<remote_dir>/.do-not-touch` exists.  `__enter__` first performs
`src_filelock.acquire(timeout=0)` — which creates the sentinel file and
takes the lock — and then runs `touch` on the remote; whether that remote
command raises is the `remote_touch_fails` parameter.  There is no
`try`/`except` in `__enter__`, so on a remote failure the exception
propagates directly (and Python does not call `__exit__` when `__enter__`
raises). -/

structure TwinLockState where
  localLocked : Bool
  localSentinel : Bool
  remoteSentinel : Bool
deriving DecidableEq, Repr

/-- `TwinFileLock.__enter__`: acquire the local lock (creating the local
sentinel), then `touch` the remote sentinel; a remote failure propagates
as `Except.error` with the state as it is at that point. -/
def twinLockEnter (remote_touch_fails : Bool) (s : TwinLockState) :
    Except Unit Unit × TwinLockState :=
  let s1 : TwinLockState := { s with localLocked := true, localSentinel := true }
  if remote_touch_fails then (.error (), s1)
  else (.ok (), { s1 with remoteSentinel := true })

/-- `TwinFileLock.__exit__`: `rm -rf` the remote sentinel, release the local
lock, remove the local sentinel file. -/
def twinLockExit (s : TwinLockState) : TwinLockState :=
  { s with remoteSentinel := false, localLocked := false, localSentinel := false }

/-! ## Dated regexes (`utils.py`)

A dated-regex source string (such as the default `"^.*%Y%m%d.*$"`) is
represented as a token sequence.  The validator of `UploadClientCallbacks`
requires the string to start with `^`, end with `$`, contain each of
`%Y`/`%m`/`%d` exactly once and no parentheses; the anchors are therefore
implicit here (matching of the substituted regex is anchored), and the glue
text is literal characters, `.` or `.*`. -/

inductive SpecTok where
  | lit (c : Char)
  | dot
  | dotStar
  | year
  | month
  | day
deriving DecidableEq, Repr

abbrev DatedSpec := List SpecTok

/-- A token of the substituted regex: `%Y → (\d{4})`, `%m → (\d{2})`,
`%d → (\d{2})`.  `group n` is a capturing group of exactly `n` digits. -/
inductive RegTok where
  | lit (c : Char)
  | dot
  | dotStar
  | group (n : Nat)
deriving DecidableEq, Repr

/-- The substitution loop of `file_or_dir_name_to_date`. -/
def substituteSpec (spec : DatedSpec) : List RegTok :=
  spec.map (fun t =>
    match t with
    | .lit c => .lit c
    | .dot => .dot
    | .dotStar => .dotStar
    | .year => .group 4
    | .month => .group 2
    | .day => .group 2)

/-- `regex[regex.index("("):regex.rindex(")") + 1]` with all parentheses
removed: the token span from the first group to the last group.  (In the
matchers below the trimmed regex is run for its match strings only, so the
group tokens it retains behave as plain `\d{n}`.) -/
def trimRegex (r : List RegTok) : List RegTok :=
  ((r.dropWhile (fun t => !(match t with | .group _ => true | _ => false))).reverse.dropWhile
      (fun t => !(match t with | .group _ => true | _ => false))).reverse

/-- Anchored greedy match, fuelled (every recursive call strictly decreases
`tokens.length + chars.length`, so the fuel used by `matchAll` below never
runs out; the structural recursion keeps the function kernel-reducible).
Returns the captured digit groups in order if the tokens consume the entire
input.  `.*` is greedy: consuming a character is preferred, with
backtracking on failure, exactly as in Python. -/
def matchAllF : Nat → List RegTok → List Char → Option (List (List Char))
  | 0, _, _ => none
  | fuel + 1, ts, s =>
    match ts, s with
    | [], [] => some []
    | [], _ :: _ => none
    | .lit _ :: _, [] => none
    | .lit c :: ts', d :: s' => if c = d then matchAllF fuel ts' s' else none
    | .dot :: _, [] => none
    | .dot :: ts', _ :: s' => matchAllF fuel ts' s'
    | .group 0 :: ts', s => (matchAllF fuel ts' s).map ([] :: ·)
    | .group (_ + 1) :: _, [] => none
    | .group (n + 1) :: ts', c :: s' =>
      if c.isDigit then
        match matchAllF fuel (.group n :: ts') s' with
        | some (pre :: caps) => some ((c :: pre) :: caps)
        | _ => none
      else none
    | .dotStar :: ts', [] => matchAllF fuel ts' []
    | .dotStar :: ts', c :: s' =>
      matchAllF fuel (.dotStar :: ts') s' <|> matchAllF fuel ts' (c :: s')

/-- Anchored greedy match of the whole character list (Python `re.findall`
on a `^...$` pattern finds at most one match: the whole string). -/
def matchAll (ts : List RegTok) (s : List Char) : Option (List (List Char)) :=
  matchAllF (ts.length + s.length + 1) ts s

/-- Unanchored greedy match at the current position, fuelled like
`matchAllF`: the number of consumed characters and the captures of the
preferred (greedy, leftmost) match, if any. -/
def matchPreF : Nat → List RegTok → List Char → Option (Nat × List (List Char))
  | 0, _, _ => none
  | fuel + 1, ts, s =>
    match ts, s with
    | [], _ => some (0, [])
    | .lit _ :: _, [] => none
    | .lit c :: ts', d :: s' =>
      if c = d then (matchPreF fuel ts' s').map (fun r => (r.1 + 1, r.2)) else none
    | .dot :: _, [] => none
    | .dot :: ts', _ :: s' => (matchPreF fuel ts' s').map (fun r => (r.1 + 1, r.2))
    | .group 0 :: ts', s => (matchPreF fuel ts' s).map (fun r => (r.1, [] :: r.2))
    | .group (_ + 1) :: _, [] => none
    | .group (n + 1) :: ts', c :: s' =>
      if c.isDigit then
        match matchPreF fuel (.group n :: ts') s' with
        | some (m, pre :: caps) => some (m + 1, (c :: pre) :: caps)
        | _ => none
      else none
    | .dotStar :: ts', [] => matchPreF fuel ts' []
    | .dotStar :: ts', c :: s' =>
      ((matchPreF fuel (.dotStar :: ts') s').map (fun r => (r.1 + 1, r.2))) <|>
        matchPreF fuel ts' (c :: s')

def matchPre (ts : List RegTok) (s : List Char) : Option (Nat × List (List Char)) :=
  matchPreF (ts.length + s.length + 1) ts s

/-- Python `re.findall` on an unanchored pattern, fuelled by the string
length (each step advances at least one position): scan left to right,
collect non-overlapping matches (match string and captures), advancing by
one position after a failure or a zero-width match. -/
def findallF (t : List RegTok) : Nat → List Char → List (List Char × List (List Char))
  | 0, _ => []
  | fuel + 1, s =>
    match s with
    | [] =>
      match matchPre t [] with
      | some (_, caps) => [([], caps)]
      | none => []
    | c :: s' =>
      match matchPre t (c :: s') with
      | some (0, caps) => ([], caps) :: findallF t fuel s'
      | some (n + 1, caps) =>
        ((c :: s').take (n + 1), caps) :: findallF t fuel ((c :: s').drop (n + 1))
      | none => findallF t fuel s'

def findall (t : List RegTok) (s : List Char) : List (List Char × List (List Char)) :=
  findallF t (s.length + 1) s

/-- The substring list built by `filename_is_ambiguous_for_dated_regex`:
the proper non-empty pre-parts `filename[0:i]`, the proper post-parts
`filename[i:]` (for `i` in `range(1, len(filename))`), and the filename
itself. -/
def pySubstrings (s : List Char) : List (List Char) :=
  ((List.range' 1 (s.length - 1)).map (fun i => s.take i)) ++
    ((List.range' 1 (s.length - 1)).map (fun i => s.drop i)) ++ [s]

/-- The match-string collection of `filename_is_ambiguous_for_dated_regex`:
`re.findall(trimmed_regex, substring)` over every entry of the substring
list (the trimmed regex has no capturing groups, so `findall` yields match
strings). -/
def ambiguityMatches (regex : List RegTok) (filename : List Char) : List (List Char) :=
  let trimmed_regex := trimRegex regex
  (pySubstrings filename).flatMap (fun sub => (findall trimmed_regex sub).map Prod.fst)

/-- `filename_is_ambiguous_for_dated_regex`: more than one distinct match
string over all collected substrings. -/
def filename_is_ambiguous_for_dated_regex (regex : List RegTok) (filename : List Char) : Bool :=
  decide (1 < (ambiguityMatches regex filename).dedup.length)

/-! ## Calendar dates and the wall-clock cutoff -/

structure DateTriple where
  y : Nat
  m : Nat
  d : Nat
deriving DecidableEq, Repr

def isLeapYear (y : Nat) : Bool :=
  y % 4 = 0 && (y % 100 != 0 || y % 400 = 0)

def daysInMonth (y m : Nat) : Nat :=
  if m = 2 then (if isLeapYear y then 29 else 28)
  else if m = 4 || m = 6 || m = 9 || m = 11 then 30
  else 31

/-- The calendar validation performed by `datetime.datetime.strptime`:
years 1–9999, months 1–12, days 1–last day of the month. -/
def validDate (t : DateTriple) : Bool :=
  1 ≤ t.y && t.y ≤ 9999 && 1 ≤ t.m && t.m ≤ 12 && 1 ≤ t.d && t.d ≤ daysInMonth t.y t.m

/-- `datetime.date` comparison: lexicographic on (year, month, day). -/
def dateLe (a b : DateTriple) : Bool :=
  a.y < b.y || (a.y = b.y && (a.m < b.m || (a.m = b.m && a.d ≤ b.d)))

/-- `date − timedelta(days=1)` as a calendar operation. -/
def prevDay (t : DateTriple) : DateTriple :=
  if 1 < t.d then ⟨t.y, t.m, t.d - 1⟩
  else if 1 < t.m then ⟨t.y, t.m - 1, daysInMonth t.y (t.m - 1)⟩
  else ⟨t.y - 1, 12, 31⟩

/-- The wall-clock reading `datetime.datetime.now()`: the current date and
the current hour. -/
structure Clock where
  today : DateTriple
  hour : Nat
deriving DecidableEq, Repr

/-- `latest_date` of `file_or_dir_name_to_date`: `(now − 1 day).date()` when
`now.hour > 0`, else `(now − 2 days).date()`. -/
def latestDate (c : Clock) : DateTriple :=
  if 0 < c.hour then prevDay c.today else prevDay (prevDay c.today)

/-! ## `file_or_dir_name_to_date` -/

inductive ParseResult where
  | ambiguous
  | none
  | date (t : DateTriple)
deriving DecidableEq, Repr

/-- The `keys` list of `file_or_dir_name_to_date`: the three date tokens
sorted by their position in the dated regex (each occurs exactly once, so
this is their occurrence order). -/
def dateKeys (spec : DatedSpec) : List SpecTok :=
  spec.filter (fun t => decide (t = .year) || decide (t = .month) || decide (t = .day))

/-- Numeric value of an all-digit capture. -/
def digitsVal (ds : List Char) : Nat :=
  ds.foldl (fun a c => 10 * a + (c.toNat - 48)) 0

/-- `strptime(f"{match[0]}-{match[1]}-{match[2]}", "-".join(keys))`:
the i-th capture is interpreted as the date field named by the i-th key. -/
def capsToTriple (spec : DatedSpec) (caps : List (List Char)) : DateTriple :=
  let pairs := (dateKeys spec).zip caps
  let fieldOf := fun (k : SpecTok) =>
    match pairs.find? (fun p => p.1 = k) with
    | some p => digitsVal p.2
    | Option.none => 0
  ⟨fieldOf .year, fieldOf .month, fieldOf .day⟩

/-- `file_or_dir_name_to_date` from `utils.py`: substitute the date tokens,
raise `ValueError` (here: `.ambiguous`) when the ambiguity check fires, run
the anchored regex (0 matches → `None`), interpret the captures through the
key order, reject invalid calendar dates (`strptime` raising) and dates
after `latest_date` as `None`. -/
def file_or_dir_name_to_date (clock : Clock) (spec : DatedSpec) (name : List Char) : ParseResult :=
  let regex := substituteSpec spec
  if filename_is_ambiguous_for_dated_regex regex name then .ambiguous
  else
    match matchAll regex name with
    | Option.none => .none
    | some caps =>
      let t := capsToTriple spec caps
      if validDate t then
        if dateLe t (latestDate clock) then .date t else .none
      else .none

/-! ## The spec-side ambiguity condition (for comparison)

Modelled from the spec: the spec describes the ambiguity check as running
the trimmed body over *all proper and improper substrings* of the name and
collecting the set of distinct *date-triples*.  `allSubstrings` enumerates
every non-empty contiguous substring (the empty substring can never match a
body containing digit groups), and the triples are read off each match
through the key order. -/
def allSubstrings (s : List Char) : List (List Char) :=
  (List.range s.length).flatMap (fun i =>
    (List.range (s.length - i)).map (fun k => ((s.drop i).take (k + 1))))

/-- Modelled from the spec: the set (as a deduplicated list) of distinct
date-triples produced by running the trimmed unanchored body over every
substring of the name. -/
def specAmbiguityTriples (spec : DatedSpec) (name : List Char) : List DateTriple :=
  let trimmed := trimRegex (substituteSpec spec)
  ((allSubstrings name).flatMap (fun sub =>
    (findall trimmed sub).map (fun m => capsToTriple spec m.2))).dedup

/-! ## `get_src_dates` (`utils.py`)

The directory listing is the `os.listdir` result in enumeration order; each
entry carries the `os.path.isdir`/`os.path.isfile` answers for its full
path.  The function returns the dict `dates` as an association list in
first-encounter key order, with each value list in `os.listdir` order, or
raises (`Except.error`) with the accumulated ambiguous paths. -/

structure DirEntry where
  name : String
  isDir : Bool
  isFile : Bool
deriving DecidableEq, Repr

inductive Variant where
  | directories
  | files
deriving DecidableEq, Repr

/-- `os.path.join(src_path, name)` for a relative `name`. -/
def osPathJoin (a b : String) : String := a ++ "/" ++ b

/-- The `os.path.isdir`/`os.path.isfile` filter chosen by the variant. -/
def considerEntry (variant : Variant) (e : DirEntry) : Bool :=
  match variant with
  | .directories => e.isDir
  | .files => e.isFile

/-- Append a path to the dict entry of its date (`dates[date].append(path)`,
creating the key on first encounter). -/
def addToDates (dates : List (DateTriple × List String)) (t : DateTriple) (path : String) :
    List (DateTriple × List String) :=
  match dates with
  | [] => [(t, [path])]
  | (t', ps) :: rest =>
    if t' = t then (t', ps ++ [path]) :: rest else (t', ps) :: addToDates rest t path

/-- The main loop of `get_src_dates`, accumulating the dict and the
ambiguous paths. -/
def getSrcDatesAux (clock : Clock) (spec : DatedSpec) (variant : Variant) (src_path : String) :
    List DirEntry → List (DateTriple × List String) → List String →
      List (DateTriple × List String) × List String
  | [], dates, ambig => (dates, ambig)
  | e :: es, dates, ambig =>
    let path := osPathJoin src_path e.name
    if considerEntry variant e then
      match file_or_dir_name_to_date clock spec e.name.toList with
      | .ambiguous => getSrcDatesAux clock spec variant src_path es dates (ambig ++ [path])
      | .none => getSrcDatesAux clock spec variant src_path es dates ambig
      | .date t => getSrcDatesAux clock spec variant src_path es (addToDates dates t path) ambig
    else getSrcDatesAux clock spec variant src_path es dates ambig

/-- `get_src_dates` from `utils.py` (the `src_path` is assumed to be a
directory; the listing is given).  Raises `ValueError` with the ambiguous
paths if any entry's date parse was ambiguous. -/
def get_src_dates (clock : Clock) (spec : DatedSpec) (variant : Variant) (src_path : String)
    (listing : List DirEntry) : Except (List String) (List (DateTriple × List String)) :=
  let r := getSrcDatesAux clock spec variant src_path listing [] []
  if r.2.isEmpty then .ok r.1 else .error r.2

/-- The value list stored for a date key (first matching key, like a dict
lookup). -/
def listFor (t : DateTriple) (dates : List (DateTriple × List String)) : List String :=
  match dates.find? (fun p => p.1 = t) with
  | some p => p.2
  | none => []

/-- The entries of the listing that `get_src_dates` files under date `t`,
in listing order: considered by the variant and parsing to exactly `t`. -/
def entriesForDate (clock : Clock) (spec : DatedSpec) (variant : Variant) (src_path : String)
    (t : DateTriple) (listing : List DirEntry) : List String :=
  listing.filterMap (fun e =>
    if considerEntry variant e
        && (file_or_dir_name_to_date clock spec e.name.toList == .date t) then
      some (osPathJoin src_path e.name)
    else none)

/-! ## The per-item upload algorithms (`client.py`)

State model: the local item directory holds its regular files (the two
reserved names `.do-not-touch` and `upload-meta.json` are represented by
the separate `sentinel` and `metaFile` fields, matching the filter applied
to `os.listdir`), the remote item directory holds its files and sentinel.
File contents stand in for their bytes; the MD5 of a byte stream is
modelled as the stream itself (an injective-hash abstraction), so
`get_dir_checksum` becomes the concatenation of the contents of the
name-sorted non-reserved files.

Each run returns the outcome, both final states, and an event trace:
`put` (one `transfer_process.put` call), `poll` (one `should_abort_upload()`
call and its answer), local removals, remote `mkdir`, lock transitions, and
the checksum verification with its result. -/

abbrev FileName := String
abbrev Content := List Nat

structure LocalDir where
  present : Bool
  files : List (FileName × Content)
  metaFile : Option (List FileName)
  sentinel : Bool
deriving DecidableEq, Repr

structure RemoteDir where
  dirExists : Bool
  files : List (FileName × Content)
  sentinel : Bool
deriving DecidableEq, Repr

inductive Ev where
  | put (name : FileName)
  | poll (answer : Bool)
  | localRemoveFile (name : FileName)
  | localRemoveTree
  | remoteMkdir
  | lockAcquire
  | lockRelease
  | checksum (matched : Bool)
deriving DecidableEq, Repr

inductive Outcome where
  | successful
  | failed
  | aborted
  | noFilesFound
deriving DecidableEq, Repr

structure RunResult where
  outcome : Outcome
  loc : LocalDir
  rem : RemoteDir
  trace : List Ev
deriving DecidableEq, Repr

def lookupFile (files : List (FileName × Content)) (n : FileName) : Option Content :=
  (files.find? (fun p => p.1 == n)).map (·.2)

/-- Writing a file: overwrite in place or append (a `put` to an existing
remote path replaces its bytes; it never deletes anything). -/
def setFile (files : List (FileName × Content)) (n : FileName) (c : Content) :
    List (FileName × Content) :=
  if files.any (fun p => p.1 == n) then
    files.map (fun p => if p.1 == n then (n, c) else p)
  else files ++ [(n, c)]

def fileNames (files : List (FileName × Content)) : List FileName := files.map (·.1)

/-- `get_dir_checksum(path, "^.*$")`: hash the contents of the non-reserved
files in filename-sorted order; with the injective-hash abstraction the
checksum is the concatenated byte stream. -/
def dirChecksum (files : List (FileName × Content)) : List Nat :=
  ((sortBy (fun a b => strLt a.1 b.1)
      (files.filter (fun p => !(p.1 == ".do-not-touch" || p.1 == "upload-meta.json")))).map
    (·.2)).flatten

/-- `UploadMeta.init(src_dir_path)`: the code tests `os.path.isfile` on
`src_dir_path` — which names a *directory* at both call sites in
`client.py` — so the branch that reads `upload-meta.json` is unreachable
and `uploaded_files` always starts empty. -/
def uploadMetaInit (pathIsFile : Bool) (stored : Option (List FileName)) :
    Except Unit (List FileName) :=
  if pathIsFile then
    match stored with
    | some l => .ok l
    | none => .error ()
  else .ok []

/-- `floor(new_progress * 10) != floor(progress * 10)` for the `k`-th upload
out of `total` (progress before it is `(k−1)/total`, after it `k/total`). -/
def decileCross (total k : Nat) : Bool :=
  (10 * k) / total != (10 * (k - 1)) / total

structure LoopSt where
  rem : List (FileName × Content)
  meta : List FileName
  pollIdx : Nat
deriving DecidableEq, Repr

/-- The upload loop of `__upload_date_directory`: for each missing file,
`put` it, append it to the meta, dump the meta, and — only when the new
progress crosses a 10 % decile — log and poll `should_abort_upload()`,
returning early with the aborted flag when it answers true. -/
def uploadLoop (abort : Nat → Bool) (srcFiles : List (FileName × Content)) (total : Nat) :
    List FileName → LoopSt → Bool × LoopSt × List Ev
  | [], st => (false, st, [])
  | f :: rest, st =>
    let c := (lookupFile srcFiles f).getD []
    let st1 : LoopSt := ⟨setFile st.rem f c, st.meta ++ [f], st.pollIdx⟩
    let k := st1.meta.length
    if decileCross total k then
      if abort st.pollIdx then
        (true, { st1 with pollIdx := st.pollIdx + 1 }, [Ev.put f, Ev.poll true])
      else
        let r := uploadLoop abort srcFiles total rest { st1 with pollIdx := st.pollIdx + 1 }
        (r.1, r.2.1, [Ev.put f, Ev.poll false] ++ r.2.2)
    else
      let r := uploadLoop abort srcFiles total rest st1
      (r.1, r.2.1, [Ev.put f] ++ r.2.2)

/-- `DailyTransferClient.__upload_date_directory` (the failure-free
transport path): list the source files, short-circuit an empty directory
(removal policy, outcome `no files found`), compute the missing files from
the (always empty) meta, ensure the remote directory, take the twin lock,
run the upload loop (with its decile-gated abort polling), verify the
directory checksums inside the lock, release, and apply the removal
policy. -/
def upload_date_directory (remove : Bool) (abort : Nat → Bool)
    (loc : LocalDir) (rem : RemoteDir) : RunResult :=
  let meta0 := match uploadMetaInit false loc.metaFile with
    | .ok l => l
    | .error _ => []
  if loc.files.length = 0 then
    if remove then
      let locR : LocalDir :=
        { loc with present := false, files := [], metaFile := none, sentinel := false }
      ⟨.noFilesFound, locR, rem, [Ev.localRemoveTree]⟩
    else ⟨.noFilesFound, loc, rem, []⟩
  else
    let missing := sortBy strLt
      ((fileNames loc.files).filter (fun n => !(meta0.contains n)))
    let mkdirTrace : List Ev := if rem.dirExists then [] else [Ev.remoteMkdir]
    let rem1 : RemoteDir := { rem with dirExists := true, sentinel := true }
    let loc1 : LocalDir := { loc with sentinel := true }
    let r := uploadLoop abort loc.files loc.files.length missing ⟨rem1.files, meta0, 0⟩
    let loc2 : LocalDir :=
      { loc1 with metaFile := if missing.isEmpty then loc1.metaFile else some r.2.1.meta }
    let rem2 : RemoteDir := { rem1 with files := r.2.1.rem }
    let headTrace := mkdirTrace ++ [Ev.lockAcquire] ++ r.2.2
    if r.1 then
      ⟨.aborted, { loc2 with sentinel := false }, { rem2 with sentinel := false },
        headTrace ++ [Ev.lockRelease]⟩
    else
      let ok := dirChecksum loc2.files == dirChecksum rem2.files
      if ok then
        if remove then
          let locR : LocalDir :=
            { loc2 with present := false, files := [], metaFile := none, sentinel := false }
          ⟨.successful, locR, { rem2 with sentinel := false },
            headTrace ++ [Ev.checksum true, Ev.lockRelease, Ev.localRemoveTree]⟩
        else
          ⟨.successful, { loc2 with sentinel := false }, { rem2 with sentinel := false },
            headTrace ++ [Ev.checksum true, Ev.lockRelease]⟩
      else
        ⟨.failed, { loc2 with sentinel := false }, { rem2 with sentinel := false },
          headTrace ++ [Ev.checksum false, Ev.lockRelease]⟩

/-- The loop of `__upload_date_files`: `put` each file, remove the local
file right afterwards when `remove_files_after_upload` is set, and dump the
meta.  No abort polling and no verification of any kind. -/
def filesLoop (remove : Bool) (srcFiles : List (FileName × Content)) :
    List FileName → List (FileName × Content) → List FileName →
      List (FileName × Content) × List FileName × List Ev
  | [], remFiles, meta => (remFiles, meta, [])
  | f :: rest, remFiles, meta =>
    let c := (lookupFile srcFiles f).getD []
    let r := filesLoop remove srcFiles rest (setFile remFiles f c) (meta ++ [f])
    (r.1, r.2.1, ([Ev.put f] ++ (if remove then [Ev.localRemoveFile f] else [])) ++ r.2.2)

/-- `DailyTransferClient.__upload_date_files` (the failure-free transport
path): filter the source-root listing by the date-substituted regex
(`nameMatches`), subtract the (always empty) meta, take the twin lock, run the
loop, release, and return `"successful"` — the only outcome this method
produces. -/
def upload_date_files (remove : Bool) (nameMatches : FileName → Bool)
    (loc : LocalDir) (rem : RemoteDir) : RunResult :=
  let meta0 := match uploadMetaInit false loc.metaFile with
    | .ok l => l
    | .error _ => []
  let names := sortBy strLt
    ((fileNames loc.files).filter (fun n => nameMatches n && !(meta0.contains n)))
  let r := filesLoop remove loc.files names rem.files meta0
  ⟨.successful,
    { loc with
      files := if remove then loc.files.filter (fun p => !(names.contains p.1)) else loc.files,
      metaFile := if names.isEmpty then loc.metaFile else some r.2.1,
      sentinel := false },
    { rem with files := r.1, sentinel := false },
    [Ev.lockAcquire] ++ r.2.2 ++ [Ev.lockRelease]⟩

/-! ## Trace observations -/

/-- The names put by a run, in order (one entry per `transfer_process.put`
call). -/
def putNames (tr : List Ev) : List FileName :=
  tr.filterMap (fun e => match e with | .put n => some n | _ => none)

/-- The number of `should_abort_upload()` calls in a trace. -/
def pollCount (tr : List Ev) : Nat :=
  (tr.filter (fun e => match e with | .poll _ => true | _ => false)).length

/-- The event shape of the files-variant loop: each file is put and — when
`remove_files_after_upload` is set — its local copy is removed immediately
afterwards, with nothing (no poll, no verification) in between. -/
def filesTraceSpec (remove : Bool) (names : List FileName) : List Ev :=
  names.flatMap (fun f => [Ev.put f] ++ (if remove then [Ev.localRemoveFile f] else []))

/-! # Theorems -/

/-! ## Helper lemmas -/

theorem mem_insertSorted {lt : α → α → Bool} {x a : α} :
    ∀ {l : List α}, a ∈ insertSorted lt x l ↔ a = x ∨ a ∈ l
  | [] => by simp [insertSorted]
  | y :: ys => by
    simp only [insertSorted]
    split
    all_goals simp only [List.mem_cons, mem_insertSorted (l := ys)]
    all_goals tauto

theorem mem_sortBy {lt : α → α → Bool} {a : α} :
    ∀ {l : List α}, a ∈ sortBy lt l ↔ a ∈ l
  | [] => by simp [sortBy]
  | x :: xs => by
    simp only [sortBy, mem_insertSorted, mem_sortBy (l := xs), List.mem_cons]

theorem length_insertSorted {lt : α → α → Bool} {x : α} :
    ∀ {l : List α}, (insertSorted lt x l).length = l.length + 1
  | [] => by simp [insertSorted]
  | y :: ys => by
    simp only [insertSorted]
    split <;> simp [length_insertSorted (l := ys)]

theorem length_sortBy {lt : α → α → Bool} :
    ∀ {l : List α}, (sortBy lt l).length = l.length
  | [] => by simp [sortBy]
  | x :: xs => by
    simp [sortBy, length_insertSorted, length_sortBy (l := xs)]

theorem one_lt_dedup_length_iff {α : Type _} [DecidableEq α] (l : List α) :
    1 < l.dedup.length ↔ ∃ a b, a ∈ l ∧ b ∈ l ∧ a ≠ b := by
  constructor
  · intro h
    match hd : l.dedup with
    | [] => rw [hd] at h; simp at h
    | [x] => rw [hd] at h; simp at h
    | x :: y :: t =>
      have hnd := l.nodup_dedup
      rw [hd] at hnd
      have hx : x ∈ l.dedup := by rw [hd]; simp
      have hy : y ∈ l.dedup := by rw [hd]; simp
      refine ⟨x, y, List.mem_dedup.mp hx, List.mem_dedup.mp hy, ?_⟩
      intro hxy
      exact (List.nodup_cons.mp hnd).1 (by simp [hxy])
  · rintro ⟨a, b, ha, hb, hne⟩
    have ha' : a ∈ l.dedup := List.mem_dedup.mpr ha
    have hb' : b ∈ l.dedup := List.mem_dedup.mpr hb
    match hd : l.dedup with
    | [] => rw [hd] at ha'; simp at ha'
    | [x] =>
      rw [hd] at ha' hb'
      simp at ha' hb'
      exact absurd (ha'.trans hb'.symm) hne
    | x :: y :: t => simp

/-! ## C2 — TwinLock acquisition atomicity -/

/-- C2 (corrected): the behaviour of `TwinFileLock.__enter__`/`__exit__`.
When the remote `touch` fails, the error propagates while the local
advisory lock is *still held* and the local sentinel file *still exists*
(there is no cleanup in `__enter__`, and Python does not invoke `__exit__`
when `__enter__` raises); on success both sentinels exist and the lock is
held; `__exit__` clears everything. -/
theorem twinLockEnter_behaviour : ∀ (s : TwinLockState) (b : Bool),
    (b = true →
      twinLockEnter b s = (.error (), { s with localLocked := true, localSentinel := true }))
    ∧ (b = false →
      twinLockEnter b s = (.ok (), ⟨true, true, true⟩))
    ∧ twinLockExit s = ⟨false, false, false⟩ := by
  intro s b
  refine ⟨?_, ?_, rfl⟩
  · rintro rfl; rfl
  · rintro rfl; rfl

/-- Witness for `twinLockEnter_behaviour` at a concrete state. -/
theorem twinLockEnter_behaviour_witness :
    twinLockEnter true ⟨false, false, false⟩ =
      (.error (), ⟨true, true, false⟩) := by
  have h := (twinLockEnter_behaviour ⟨false, false, false⟩ true).1 rfl
  exact h

/-- The claim "the local lock is released and the local sentinel file
removed before the error is propagated (state unchanged on error)" is
false: from a clean state, a failing remote touch leaves the error
propagating with the local lock held and the local sentinel present. -/
theorem twinLockEnter_claim_counterexample :
    (twinLockEnter true ⟨false, false, false⟩).1 = .error ()
    ∧ (twinLockEnter true ⟨false, false, false⟩).2.localLocked = true
    ∧ (twinLockEnter true ⟨false, false, false⟩).2.localSentinel = true :=
  ⟨rfl, rfl, rfl⟩

/-! ## C9 — the inventory diff -/

/-- C9 (confirmed): `compare_directory_screens` returns exactly
`(local ∩ remote, local − remote)`, with `File` equality over all three
fields, and a file present only on the remote appears in neither
component. -/
theorem compare_directory_screens_spec : ∀ (src dst : Directory) (f g : File),
    (f ∈ (compare_directory_screens src dst).1 ↔ f ∈ src.files ∧ f ∈ dst.files)
    ∧ (f ∈ (compare_directory_screens src dst).2 ↔ f ∈ src.files ∧ f ∉ dst.files)
    ∧ (f ∉ src.files →
        f ∉ (compare_directory_screens src dst).1 ∧ f ∉ (compare_directory_screens src dst).2)
    ∧ (f = g ↔
        f.filesize = g.filesize ∧ f.md5sum = g.md5sum ∧ f.relative_path = g.relative_path) := by
  intro src dst f g
  refine ⟨?_, ?_, ?_, ?_⟩
  · simp [compare_directory_screens]
  · simp [compare_directory_screens]
  · intro h
    constructor <;> simp [compare_directory_screens, h]
  · constructor
    · rintro rfl; exact ⟨rfl, rfl, rfl⟩
    · rintro ⟨h1, h2, h3⟩
      cases f; cases g
      simp_all

/-- Witness for `compare_directory_screens_spec`: a remote-only file is
reported in neither component. -/
theorem compare_directory_screens_spec_witness :
    (⟨1, "h", "x"⟩ : File) ∉
        (compare_directory_screens ⟨[]⟩ ⟨[⟨1, "h", "x"⟩]⟩).1
    ∧ (⟨1, "h", "x"⟩ : File) ∉
        (compare_directory_screens ⟨[]⟩ ⟨[⟨1, "h", "x"⟩]⟩).2 := by
  have h := (compare_directory_screens_spec ⟨[]⟩ ⟨[⟨1, "h", "x"⟩]⟩
    ⟨1, "h", "x"⟩ ⟨1, "h", "x"⟩).2.2.1 (by simp)
  exact h

/-! ## C10 — `File.subdirectory` and `Directory.get_subdirectories` -/

theorem splitOnChar_of_count_zero {sep : Char} :
    ∀ {l : List Char}, l.count sep = 0 → splitOnChar sep l = [l]
  | [], _ => rfl
  | c :: cs, h => by
    have hc : ¬(c = sep) := by
      intro hcs
      simp [hcs, List.count_cons] at h
    have hcs : cs.count sep = 0 := by
      simp [List.count_cons] at h
      omega
    simp only [splitOnChar, if_neg hc, splitOnChar_of_count_zero hcs]

/-- C10 (confirmed): `subdirectory()` is `None` exactly when
`relative_path` contains exactly one `/`; a root-level file (no `/`)
yields the empty string; hence `get_subdirectories()` contains `""`
whenever a root-level file exists, and singly-nested files contribute
nothing (their one-level prefix is omitted). -/
theorem file_subdirectory_spec : ∀ (f : File) (d : Directory),
    (f.subdirectory = none ↔ f.relative_path.toList.count '/' = 1)
    ∧ (f.relative_path.toList.count '/' = 0 → f.subdirectory = some "")
    ∧ ((∃ g ∈ d.files, g.relative_path.toList.count '/' = 0) →
        "" ∈ d.get_subdirectories)
    ∧ ((∀ g ∈ d.files, g.relative_path.toList.count '/' = 1) →
        d.get_subdirectories = ∅) := by
  intro f d
  have heq : ∀ h : File, h.subdirectory =
      if h.relative_path.toList.count '/' = 1 then none
      else some (joinWith "/"
        (((splitOnChar '/' h.relative_path.toList).dropLast).map String.mk)) := by
    intro h; rfl
  have hnone : ∀ h : File,
      (h.subdirectory = none ↔ h.relative_path.toList.count '/' = 1) := by
    intro h
    rw [heq h]
    split_ifs with hc
    · exact ⟨fun _ => hc, fun _ => rfl⟩
    · exact iff_of_false (by simp) hc
  have hroot : ∀ h : File, h.relative_path.toList.count '/' = 0 →
      h.subdirectory = some "" := by
    intro h hc
    rw [heq h, if_neg (by omega), splitOnChar_of_count_zero hc]
    rfl
  refine ⟨hnone f, hroot f, ?_, ?_⟩
  · rintro ⟨g, hg, hgc⟩
    unfold Directory.get_subdirectories
    rw [List.mem_toFinset, List.mem_filterMap]
    exact ⟨g, hg, hroot g hgc⟩
  · intro hall
    unfold Directory.get_subdirectories
    have : d.files.filterMap File.subdirectory = [] := by
      rw [List.filterMap_eq_nil_iff]
      intro g hg
      exact (hnone g).mpr (hall g hg)
    rw [this]
    rfl

/-- Witness for `file_subdirectory_spec`: a root-level file maps to the
empty-string subdirectory, and it puts `""` into `get_subdirectories`. -/
theorem file_subdirectory_spec_witness :
    File.subdirectory ⟨1, "h", "a.txt"⟩ = some ""
    ∧ "" ∈ Directory.get_subdirectories ⟨[⟨1, "h", "a.txt"⟩]⟩ := by
  refine ⟨(file_subdirectory_spec ⟨1, "h", "a.txt"⟩ ⟨[]⟩).2.1 (by decide), ?_⟩
  exact (file_subdirectory_spec ⟨1, "h", "a.txt"⟩ ⟨[⟨1, "h", "a.txt"⟩]⟩).2.2.1
    ⟨⟨1, "h", "a.txt"⟩, by simp, by decide⟩

/-! ## C3 — the ambiguity condition of `parse` -/

theorem filename_ambiguous_iff (regex : List RegTok) (name : List Char) :
    filename_is_ambiguous_for_dated_regex regex name = true ↔
      1 < (ambiguityMatches regex name).dedup.length := by
  unfold filename_is_ambiguous_for_dated_regex
  exact decide_eq_true_iff

/-- C3 (corrected): `parse` fails with `Ambiguous` iff running the trimmed
capture-free body over the collected substrings — the proper pre-parts, the
proper post-parts and the name itself, not all substrings — yields more
than one distinct *match string* (not date-triple). -/
theorem parse_ambiguous_iff : ∀ (clock : Clock) (spec : DatedSpec) (name : List Char),
    file_or_dir_name_to_date clock spec name = .ambiguous ↔
      ∃ m1 m2, m1 ∈ ambiguityMatches (substituteSpec spec) name
        ∧ m2 ∈ ambiguityMatches (substituteSpec spec) name ∧ m1 ≠ m2 := by
  intro clock spec name
  rw [← one_lt_dedup_length_iff]
  unfold file_or_dir_name_to_date
  by_cases h : filename_is_ambiguous_for_dated_regex (substituteSpec spec) name = true
  · rw [if_pos h]
    exact iff_of_true rfl ((filename_ambiguous_iff _ _).mp h)
  · rw [if_neg h]
    refine iff_of_false ?_ (fun hk => h ((filename_ambiguous_iff _ _).mpr hk))
    cases hm : matchAll (substituteSpec spec) name with
    | none => simp [hm]
    | some caps =>
      simp only [hm]
      split_ifs <;> simp

/-- The claim's version of the condition — distinct *date-triples* over
*all* substrings — is not equivalent: on the spec `^%Y-.-%m%d$` and the
name `2020-a-11112020-b-1111` the code fails with `Ambiguous` (two distinct
match strings) although only one distinct date-triple exists. -/
theorem parse_ambiguous_counterexample :
    file_or_dir_name_to_date ⟨⟨2024, 1, 10⟩, 5⟩
        [.year, .lit '-', .dot, .lit '-', .month, .day]
        "2020-a-11112020-b-1111".toList = .ambiguous
    ∧ (specAmbiguityTriples [.year, .lit '-', .dot, .lit '-', .month, .day]
        "2020-a-11112020-b-1111".toList).length = 1 := by
  decide

/-! ## C4 — MaxDate and the `none` results -/

/-- C4 (corrected): `latest_date` is today − 1 day when `now.hour > 0` and
today − 2 days otherwise; for every name that *passes the ambiguity check*
and whose matched triple is calendar-invalid or beyond `latest_date`,
`parse` returns `none`; and any date `parse` does return is valid and
at most `latest_date`.  (The ambiguity proviso is forced: see the
counterexample.) -/
theorem parse_maxdate_none : ∀ (clock : Clock) (spec : DatedSpec) (name : List Char)
    (caps : List (List Char)),
    (latestDate clock =
      if 0 < clock.hour then prevDay clock.today else prevDay (prevDay clock.today))
    ∧ (filename_is_ambiguous_for_dated_regex (substituteSpec spec) name = false →
        matchAll (substituteSpec spec) name = some caps →
        (validDate (capsToTriple spec caps) = false ∨
          dateLe (capsToTriple spec caps) (latestDate clock) = false) →
        file_or_dir_name_to_date clock spec name = .none)
    ∧ (∀ t, file_or_dir_name_to_date clock spec name = .date t →
        validDate t = true ∧ dateLe t (latestDate clock) = true) := by
  intro clock spec name caps
  refine ⟨rfl, ?_, ?_⟩
  · intro h1 h2 h3
    unfold file_or_dir_name_to_date
    simp only [h1, Bool.false_eq_true, if_false, h2]
    rcases h3 with h3 | h3
    · simp [h3]
    · split_ifs <;> simp_all
  · intro t ht
    unfold file_or_dir_name_to_date at ht
    by_cases h : filename_is_ambiguous_for_dated_regex (substituteSpec spec) name = true
    · rw [if_pos h] at ht
      cases ht
    · rw [if_neg h] at ht
      cases hm : matchAll (substituteSpec spec) name with
      | none => rw [hm] at ht; cases ht
      | some caps' =>
        rw [hm] at ht
        dsimp only at ht
        split_ifs at ht with hv hl
        cases ht
        exact ⟨hv, hl⟩

/-- Witness for `parse_maxdate_none`: `20201332` (month 13) passes the
ambiguity check, matches the default regex, is calendar-invalid, and parses
to `none`. -/
theorem parse_maxdate_none_witness :
    file_or_dir_name_to_date ⟨⟨2024, 1, 10⟩, 5⟩
      [.dotStar, .year, .month, .day, .dotStar] "20201332".toList = .none := by
  have h := (parse_maxdate_none ⟨⟨2024, 1, 10⟩, 5⟩
    [.dotStar, .year, .month, .day, .dotStar] "20201332".toList
    [['2', '0', '2', '0'], ['1', '3'], ['3', '2']]).2.1
    (by decide) (by decide) (Or.inl (by decide))
  exact h

/-- The claim's "parse returns none (not an ambiguity failure) for every
name whose matched triple is invalid" is false: `13131313131313` has the
anchored match `(1313, 13, 13)` — calendar-invalid — yet `parse` fails
with `Ambiguous` instead of returning `none`. -/
theorem parse_maxdate_counterexample :
    matchAll (substituteSpec [.dotStar, .year, .month, .day, .dotStar])
        "13131313131313".toList =
      some [['1', '3', '1', '3'], ['1', '3'], ['1', '3']]
    ∧ validDate (capsToTriple [.dotStar, .year, .month, .day, .dotStar]
        [['1', '3', '1', '3'], ['1', '3'], ['1', '3']]) = false
    ∧ file_or_dir_name_to_date ⟨⟨2024, 1, 10⟩, 5⟩
        [.dotStar, .year, .month, .day, .dotStar] "13131313131313".toList = .ambiguous := by
  decide

/-! ## C6 — the remote inventory line protocol -/

theorem parseDataLine_some {line : String} {f : File}
    (h : parseDataLine line = .ok (some f)) :
    f.relative_path ≠ ".do-not-touch" ∧ f.relative_path ≠ "upload-meta.json"
    ∧ ∃ a c : String, pySplit "  " line = [a, f.md5sum, c]
        ∧ pyInt a = some f.filesize ∧ String.mk (c.toList.drop 2) = f.relative_path := by
  unfold parseDataLine at h
  rcases hs : pySplit "  " line with _ | ⟨a, _ | ⟨b, _ | ⟨c, _ | ⟨d, t⟩⟩⟩⟩ <;>
    simp only [hs] at h
  · cases h
  · cases h
  · cases h
  · cases hi : pyInt a with
    | none => simp only [hi] at h; cases h
    | some n =>
      simp only [hi] at h
      split_ifs at h with hr
      · cases h
      · push_neg at hr
        injection h with h2
        injection h2 with h3
        subst h3
        exact ⟨hr.1, hr.2, a, c, rfl, hi, rfl⟩
  · cases h

theorem collectFiles_mem : ∀ {ls : List String} {fs : List File},
    collectFiles ls = .ok fs → ∀ f ∈ fs, ∃ l ∈ ls, parseDataLine l = .ok (some f) := by
  intro ls
  induction ls with
  | nil =>
    intro fs h f hf
    simp only [collectFiles] at h
    injection h with h2
    subst h2
    cases hf
  | cons l ls ih =>
    intro fs h f hf
    simp only [collectFiles] at h
    cases hp : parseDataLine l with
    | error e =>
      simp only [hp] at h
      exact Except.noConfusion h
    | ok o =>
      simp only [hp] at h
      cases o with
      | none =>
        obtain ⟨l', hl', hpl⟩ := ih h f hf
        exact ⟨l', List.mem_cons_of_mem _ hl', hpl⟩
      | some g =>
        cases hc : collectFiles ls with
        | error e =>
          simp only [hc, Except.map] at h
          exact Except.noConfusion h
        | ok fs' =>
          simp only [hc, Except.map] at h
          injection h with h2
          subst h2
          rcases List.mem_cons.mp hf with rfl | hf'
          · exact ⟨l, List.mem_cons_self _ _, hp⟩
          · obtain ⟨l', hl', hpl⟩ := ih hc f hf'
            exact ⟨l', List.mem_cons_of_mem _ hl', hpl⟩

/-- C6 (confirmed): `screen_remote_directory` fails fatally — it never
returns a partial inventory — whenever the last line of the stripped
stdout is not the sentinel `--- done ---`; and every file of a successful
screen comes from a data line that split on the two-space separator into
exactly three fields (size, md5, `./relative_path`), with the leading two
characters (`./`) stripped from the path and the two reserved names
excluded. -/
theorem screen_remote_stdout_spec : ∀ stdout : String,
    ((pySplit "\n" (pyStrip stdout)).getLast? ≠ some "--- done ---" →
      ∃ e, screen_remote_stdout stdout = .error e)
    ∧ (∀ dir, screen_remote_stdout stdout = .ok dir →
        (pySplit "\n" (pyStrip stdout)).getLast? = some "--- done ---"
        ∧ ∀ f ∈ dir.files,
            f.relative_path ≠ ".do-not-touch" ∧ f.relative_path ≠ "upload-meta.json"
            ∧ ∃ line ∈ (pySplit "\n" (pyStrip stdout)).dropLast, ∃ a c : String,
                pySplit "  " line = [a, f.md5sum, c] ∧ pyInt a = some f.filesize
                ∧ String.mk (c.toList.drop 2) = f.relative_path) := by
  intro stdout
  constructor
  · intro h
    unfold screen_remote_stdout
    rw [if_neg h]
    exact ⟨_, rfl⟩
  · intro dir h
    simp only [screen_remote_stdout] at h
    split_ifs at h with hs
    · refine ⟨hs, ?_⟩
      intro f hf
      cases hc : collectFiles (pySplit "\n" (pyStrip stdout)).dropLast with
      | error e =>
        simp only [hc, Except.map] at h
        exact Except.noConfusion h
      | ok fs =>
        simp only [hc, Except.map] at h
        injection h with h2
        have hf' : f ∈ fs := by
          rw [← h2] at hf
          exact List.mem_dedup.mp (mem_sortBy.mp hf)
        obtain ⟨l, hl, hp⟩ := collectFiles_mem hc f hf'
        obtain ⟨h1', h2', a, c, h3', h4', h5'⟩ := parseDataLine_some hp
        exact ⟨h1', h2', l, hl, a, c, h3', h4', h5'⟩

/-- Witness for `screen_remote_stdout_spec`: output without the sentinel is
rejected, and a well-formed output yields the parsed file. -/
theorem screen_remote_stdout_spec_witness :
    (∃ e, screen_remote_stdout "5  abc  ./x.txt" = .error e)
    ∧ ((screen_remote_stdout "5  abc  ./x.txt\n--- done ---\n").isOk = true) := by
  refine ⟨(screen_remote_stdout_spec "5  abc  ./x.txt").1 (by decide), by decide⟩

/-! ## C8 — ordering of the item listing -/

theorem listFor_addToDates (dates : List (DateTriple × List String)) (t t' : DateTriple)
    (p : String) :
    listFor t (addToDates dates t' p) =
      if t = t' then listFor t dates ++ [p] else listFor t dates := by
  induction dates with
  | nil =>
    by_cases h : t = t'
    · subst h; simp [addToDates, listFor, List.find?]
    · simp [addToDates, listFor, List.find?, h, Ne.symm h]
  | cons hd tl ih =>
    obtain ⟨t0, ps⟩ := hd
    simp only [addToDates]
    by_cases h0 : t0 = t'
    · rw [if_pos h0]
      by_cases h : t = t0
      · subst h
        rw [if_pos h0]
        simp [listFor, List.find?]
      · rw [if_neg (fun ht => h (ht.trans h0.symm))]
        simp [listFor, List.find?, Ne.symm h]
    · rw [if_neg h0]
      by_cases h : t = t0
      · subst h
        rw [if_neg h0]
        simp [listFor, List.find?]
      · simp only [listFor, List.find?]
        have : (decide (t0 = t)) = false := by simp [Ne.symm h]
        rw [this]
        simp only [Bool.false_eq_true, if_false]
        exact ih

theorem entriesForDate_cons (clock : Clock) (spec : DatedSpec) (variant : Variant)
    (src_path : String) (t : DateTriple) (e : DirEntry) (es : List DirEntry) :
    entriesForDate clock spec variant src_path t (e :: es) =
      (if considerEntry variant e
          && (file_or_dir_name_to_date clock spec e.name.toList == ParseResult.date t) then
        [osPathJoin src_path e.name]
      else []) ++ entriesForDate clock spec variant src_path t es := by
  by_cases h : (considerEntry variant e
      && (file_or_dir_name_to_date clock spec e.name.toList == ParseResult.date t)) = true
  · simp only [entriesForDate, List.filterMap_cons, h]
    simp
  · have h' : (considerEntry variant e
        && (file_or_dir_name_to_date clock spec e.name.toList == ParseResult.date t)) = false := by
      revert h
      cases considerEntry variant e
          && (file_or_dir_name_to_date clock spec e.name.toList == ParseResult.date t) <;> simp
    simp only [entriesForDate, List.filterMap_cons, h']
    simp

theorem getSrcDatesAux_listFor (clock : Clock) (spec : DatedSpec) (variant : Variant)
    (src_path : String) :
    ∀ (es : List DirEntry) (dates : List (DateTriple × List String)) (ambig : List String)
      (t : DateTriple),
      listFor t (getSrcDatesAux clock spec variant src_path es dates ambig).1 =
        listFor t dates ++ entriesForDate clock spec variant src_path t es := by
  intro es
  induction es with
  | nil => intro dates ambig t; simp [getSrcDatesAux, entriesForDate]
  | cons e es ih =>
    intro dates ambig t
    simp only [getSrcDatesAux]
    rw [entriesForDate_cons]
    by_cases hc : considerEntry variant e = true
    · rw [if_pos hc]
      cases hp : file_or_dir_name_to_date clock spec e.name.toList with
      | ambiguous => rw [ih]; simp
      | none => rw [ih]; simp
      | date t' =>
        rw [ih, listFor_addToDates]
        by_cases ht : t = t'
        · subst ht
          simp [hc]
        · simp [ht, Ne.symm ht]
    · rw [if_neg hc]
      rw [ih]
      have hb : considerEntry variant e = false := by
        revert hc; cases considerEntry variant e <;> simp
      simp [hb]

/-- C8 (corrected): the item lister applies *no sorting*: the per-date path
lists returned by `get_src_dates` are exactly the matching entries in
`os.listdir` enumeration order (so the result is deterministic only up to
the OS-dependent listing order, not "sorted ascending by basename"). -/
theorem get_src_dates_order : ∀ (clock : Clock) (spec : DatedSpec) (variant : Variant)
    (src_path : String) (listing : List DirEntry) (dates : List (DateTriple × List String)),
    get_src_dates clock spec variant src_path listing = .ok dates →
    ∀ t, listFor t dates = entriesForDate clock spec variant src_path t listing := by
  intro clock spec variant src_path listing dates h t
  simp only [get_src_dates] at h
  split_ifs at h with he
  · injection h with h2
    subst h2
    have hx := getSrcDatesAux_listFor clock spec variant src_path listing [] [] t
    simpa [listFor] using hx

/-- Witness for `get_src_dates_order` on a concrete listing. -/
theorem get_src_dates_order_witness :
    listFor ⟨2024, 1, 1⟩ [(⟨2024, 1, 1⟩, ["src/a20240101"])] =
      entriesForDate ⟨⟨2030, 1, 1⟩, 5⟩ [.dotStar, .year, .month, .day, .dotStar]
        .directories "src" ⟨2024, 1, 1⟩ [⟨"a20240101", true, false⟩] := by
  have h := get_src_dates_order ⟨⟨2030, 1, 1⟩, 5⟩
    [.dotStar, .year, .month, .day, .dotStar] .directories "src"
    [⟨"a20240101", true, false⟩] [(⟨2024, 1, 1⟩, ["src/a20240101"])] (by rfl) ⟨2024, 1, 1⟩
  exact h

/-- The claim "the item-listing operation returns a deterministically
ordered result, sorted ascending by basename" is false: with the listing
order `b20240101, a20240101` the returned list is not ascending by
basename, and reversing the listing changes the result. -/
theorem get_src_dates_counterexample :
    get_src_dates ⟨⟨2030, 1, 1⟩, 5⟩ [.dotStar, .year, .month, .day, .dotStar] .directories "src"
        [⟨"b20240101", true, false⟩, ⟨"a20240101", true, false⟩] =
      .ok [(⟨2024, 1, 1⟩, ["src/b20240101", "src/a20240101"])]
    ∧ sortBy strLt ["src/b20240101", "src/a20240101"] =
        ["src/a20240101", "src/b20240101"]
    ∧ get_src_dates ⟨⟨2030, 1, 1⟩, 5⟩ [.dotStar, .year, .month, .day, .dotStar] .directories "src"
        [⟨"a20240101", true, false⟩, ⟨"b20240101", true, false⟩] =
      .ok [(⟨2024, 1, 1⟩, ["src/a20240101", "src/b20240101"])] := by
  exact ⟨rfl, by decide, rfl⟩

/-! ## Lemmas about the upload loops -/

theorem pollCount_append (a b : List Ev) : pollCount (a ++ b) = pollCount a + pollCount b := by
  simp [pollCount, List.filter_append]

theorem putNames_append (a b : List Ev) : putNames (a ++ b) = putNames a ++ putNames b := by
  simp [putNames, List.filterMap_append]

theorem mem_fileNames_setFile {fs : List (FileName × Content)} {n m : FileName} {c : Content}
    (h : m ∈ fileNames fs) : m ∈ fileNames (setFile fs n c) := by
  unfold setFile
  split_ifs with ha
  · obtain ⟨p, hp, hpe⟩ := List.mem_map.mp h
    apply List.mem_map.mpr
    refine ⟨(if p.1 == n then (n, c) else p), List.mem_map_of_mem _ hp, ?_⟩
    by_cases hb : p.1 == n
    · rw [if_pos hb]
      exact (eq_of_beq hb) ▸ hpe
    · rw [if_neg hb]
      exact hpe
  · unfold fileNames at *
    simp only [List.map_append]
    exact List.mem_append_left _ h

theorem uploadLoop_rem_names (abort : Nat → Bool) (srcFiles : List (FileName × Content))
    (total : Nat) : ∀ (names : List FileName) (st : LoopSt) (n : FileName),
    n ∈ fileNames st.rem → n ∈ fileNames (uploadLoop abort srcFiles total names st).2.1.rem := by
  intro names
  induction names with
  | nil => intro st n h; exact h
  | cons f rest ih =>
    intro st n h
    simp only [uploadLoop]
    split_ifs with hcr hab
    · exact mem_fileNames_setFile h
    · exact ih _ _ (mem_fileNames_setFile h)
    · exact ih _ _ (mem_fileNames_setFile h)

theorem uploadLoop_indep_rem (abort : Nat → Bool) (srcFiles : List (FileName × Content))
    (total : Nat) : ∀ (names : List FileName) (st₁ st₂ : LoopSt),
    st₁.meta = st₂.meta → st₁.pollIdx = st₂.pollIdx →
    (uploadLoop abort srcFiles total names st₁).1 = (uploadLoop abort srcFiles total names st₂).1
    ∧ (uploadLoop abort srcFiles total names st₁).2.2 =
        (uploadLoop abort srcFiles total names st₂).2.2 := by
  intro names
  induction names with
  | nil => intro st₁ st₂ hm hp; exact ⟨rfl, rfl⟩
  | cons f rest ih =>
    intro st₁ st₂ hm hp
    simp only [uploadLoop, hm, hp]
    split_ifs with hcr hab
    · exact ⟨rfl, rfl⟩
    · have h := ih ⟨setFile st₁.rem f ((lookupFile srcFiles f).getD []), st₂.meta ++ [f],
        st₂.pollIdx + 1⟩ ⟨setFile st₂.rem f ((lookupFile srcFiles f).getD []), st₂.meta ++ [f],
        st₂.pollIdx + 1⟩ rfl rfl
      refine ⟨h.1, ?_⟩
      dsimp only
      rw [h.2]
    · have h := ih ⟨setFile st₁.rem f ((lookupFile srcFiles f).getD []), st₂.meta ++ [f],
        st₂.pollIdx⟩ ⟨setFile st₂.rem f ((lookupFile srcFiles f).getD []), st₂.meta ++ [f],
        st₂.pollIdx⟩ rfl rfl
      refine ⟨h.1, ?_⟩
      dsimp only
      rw [h.2]

theorem uploadLoop_abort_suffix (abort : Nat → Bool) (srcFiles : List (FileName × Content))
    (total : Nat) : ∀ (names : List FileName) (st : LoopSt),
    (uploadLoop abort srcFiles total names st).1 = true →
    ∃ pre, (uploadLoop abort srcFiles total names st).2.2 = pre ++ [Ev.poll true] := by
  intro names
  induction names with
  | nil => intro st h; simp [uploadLoop] at h
  | cons f rest ih =>
    intro st h
    simp only [uploadLoop] at h ⊢
    split_ifs at h ⊢ with hcr hab
    · exact ⟨[Ev.put f], rfl⟩
    · obtain ⟨pre, hpre⟩ := ih _ h
      exact ⟨[Ev.put f, Ev.poll false] ++ pre, by rw [hpre]; simp⟩
    · obtain ⟨pre, hpre⟩ := ih _ h
      exact ⟨[Ev.put f] ++ pre, by rw [hpre]; simp⟩

theorem uploadLoop_noabort (srcFiles : List (FileName × Content)) (total : Nat) :
    ∀ (names : List FileName) (st : LoopSt),
    (uploadLoop (fun _ => false) srcFiles total names st).1 = false
    ∧ putNames (uploadLoop (fun _ => false) srcFiles total names st).2.2 = names
    ∧ pollCount (uploadLoop (fun _ => false) srcFiles total names st).2.2 =
        ((List.range' (st.meta.length + 1) names.length).filter
          (fun k => decileCross total k)).length := by
  intro names
  induction names with
  | nil => intro st; exact ⟨rfl, rfl, by simp [uploadLoop, pollCount, List.range']⟩
  | cons f rest ih =>
    intro st
    have hk : (st.meta ++ [f]).length = st.meta.length + 1 := by simp
    have hrange : List.range' (st.meta.length + 1) (f :: rest).length =
        (st.meta.length + 1) :: List.range' (st.meta.length + 1 + 1) rest.length := by
      simp [List.range'_succ]
    simp only [uploadLoop]
    split_ifs with hcr hab
    · exact absurd hab (by simp)
    · obtain ⟨h1, h2, h3⟩ := ih ⟨setFile st.rem f ((lookupFile srcFiles f).getD []),
        st.meta ++ [f], st.pollIdx + 1⟩
      have hcr' : decileCross total (st.meta.length + 1) = true := by
        rw [← hk]; exact hcr
      refine ⟨h1, ?_, ?_⟩
      · dsimp only
        rw [putNames_append, h2]
        rfl
      · dsimp only
        rw [pollCount_append, h3, hrange, List.filter_cons]
        simp only [hcr', if_pos]
        simp only [hk, List.length_cons, List.length_append, List.length_nil]
        simp [pollCount]
        omega
    · obtain ⟨h1, h2, h3⟩ := ih ⟨setFile st.rem f ((lookupFile srcFiles f).getD []),
        st.meta ++ [f], st.pollIdx⟩
      have hcr' : decileCross total (st.meta.length + 1) = false := by
        rw [← hk]
        exact Bool.not_eq_true _ ▸ (by simpa using hcr)
      refine ⟨h1, ?_, ?_⟩
      · dsimp only
        rw [putNames_append, h2]
        rfl
      · dsimp only
        rw [pollCount_append, h3, hrange, List.filter_cons]
        simp only [hcr']
        simp only [hk, List.length_append, List.length_nil]
        simp [pollCount]

theorem map_id_of_eq {α : Type _} : ∀ {l : List α} (g : α → α), (∀ a ∈ l, g a = a) → l.map g = l := by
  intro l g h
  induction l with
  | nil => rfl
  | cons x xs ih =>
    simp only [List.map_cons]
    rw [h x (by simp), ih (fun a ha => h a (List.mem_cons_of_mem _ ha))]

theorem lookupFile_eq {f : FileName} : ∀ {fs : List (FileName × Content)},
    (fileNames fs).Nodup → ∀ {p : FileName × Content}, p ∈ fs → p.1 = f →
    lookupFile fs f = some p.2 := by
  intro fs
  induction fs with
  | nil => intro _ p hp; cases hp
  | cons q qs ih =>
    intro hnd p hp hf
    rcases List.mem_cons.mp hp with rfl | hp'
    · have hb : (p.1 == f) = true := beq_iff_eq.mpr hf
      simp [lookupFile, List.find?, hb]
    · have hq : (q.1 == f) = false := by
        apply beq_eq_false_iff_ne.mpr
        intro he
        have h1 : p.1 ∈ fileNames qs := List.mem_map_of_mem _ hp'
        have h2 : q.1 ∈ fileNames qs := by
          rw [he.trans hf.symm]
          exact h1
        exact (List.nodup_cons.mp hnd).1 h2
      have := ih (List.nodup_cons.mp hnd).2 hp' hf
      simp only [lookupFile, List.find?, hq] at this ⊢
      exact this

theorem setFile_self {fs : List (FileName × Content)} {f : FileName}
    (hnd : (fileNames fs).Nodup) (hf : f ∈ fileNames fs) :
    setFile fs f ((lookupFile fs f).getD []) = fs := by
  obtain ⟨p, hp, hpf⟩ := List.mem_map.mp hf
  have hany : fs.any (fun q => q.1 == f) = true := by
    apply List.any_eq_true.mpr
    exact ⟨p, hp, beq_iff_eq.mpr hpf⟩
  unfold setFile
  rw [if_pos hany]
  apply map_id_of_eq
  intro q hq
  by_cases hb : (q.1 == f) = true
  · rw [if_pos hb]
    have hlook : lookupFile fs f = some q.2 := lookupFile_eq hnd hq (eq_of_beq hb)
    rw [hlook]
    simp only [Option.getD_some]
    have : q = (q.1, q.2) := rfl
    rw [this, eq_of_beq hb]
  · rw [if_neg hb]

theorem uploadLoop_rem_fixed (abort : Nat → Bool) (srcFiles : List (FileName × Content))
    (total : Nat) (hnd : (fileNames srcFiles).Nodup) :
    ∀ (names : List FileName) (st : LoopSt),
    (∀ f ∈ names, f ∈ fileNames srcFiles) → st.rem = srcFiles →
    (uploadLoop abort srcFiles total names st).2.1.rem = srcFiles := by
  intro names
  induction names with
  | nil => intro st _ h; exact h
  | cons f rest ih =>
    intro st hmem hrem
    have hset : setFile st.rem f ((lookupFile srcFiles f).getD []) = srcFiles := by
      rw [hrem]
      exact setFile_self hnd (hmem f (by simp))
    have hmem' : ∀ g ∈ rest, g ∈ fileNames srcFiles :=
      fun g hg => hmem g (List.mem_cons_of_mem _ hg)
    simp only [uploadLoop]
    split_ifs with hcr hab
    · exact hset
    · exact ih _ hmem' hset
    · exact ih _ hmem' hset

theorem filesLoop_trace (remove : Bool) (srcFiles : List (FileName × Content)) :
    ∀ (names : List FileName) (remFiles : List (FileName × Content)) (meta : List FileName),
    (filesLoop remove srcFiles names remFiles meta).2.2 = filesTraceSpec remove names := by
  intro names
  induction names with
  | nil => intro remFiles meta; rfl
  | cons f rest ih =>
    intro remFiles meta
    simp only [filesLoop, filesTraceSpec, List.flatMap_cons]
    rw [ih]
    simp [filesTraceSpec]

theorem filesLoop_rem_names (remove : Bool) (srcFiles : List (FileName × Content)) :
    ∀ (names : List FileName) (remFiles : List (FileName × Content)) (meta : List FileName)
      (n : FileName), n ∈ fileNames remFiles →
    n ∈ fileNames (filesLoop remove srcFiles names remFiles meta).1 := by
  intro names
  induction names with
  | nil => intro remFiles meta n h; exact h
  | cons f rest ih =>
    intro remFiles meta n h
    exact ih _ _ _ (mem_fileNames_setFile h)

theorem pollCount_filesTraceSpec (remove : Bool) :
    ∀ names : List FileName, pollCount (filesTraceSpec remove names) = 0 := by
  intro names
  induction names with
  | nil => rfl
  | cons f rest ih =>
    simp only [filesTraceSpec, List.flatMap_cons] at ih ⊢
    rw [pollCount_append, ih]
    cases remove <;> rfl

/-- The puts of a directory run are exactly the puts of its upload loop
(run from an empty meta at poll index 0), and nothing at all for an empty
source directory; in particular they do not depend on the remote state. -/
theorem upload_dir_putNames (remove : Bool) (abort : Nat → Bool) (loc : LocalDir)
    (rem : RemoteDir) :
    putNames (upload_date_directory remove abort loc rem).trace =
      (if loc.files.length = 0 then []
       else putNames (uploadLoop abort loc.files loc.files.length
          (sortBy strLt ((fileNames loc.files).filter (fun n =>
            !((match uploadMetaInit false loc.metaFile with
                | .ok l => l
                | .error _ => []).contains n))))
          ⟨rem.files, (match uploadMetaInit false loc.metaFile with
              | .ok l => l
              | .error _ => []), 0⟩).2.2) := by
  simp only [upload_date_directory]
  split_ifs with h0 h1 h2 h3 h4 <;>
    simp [putNames_append, putNames]

/-! ## C1 — the removal policy -/

/-- C1 (corrected): in the *directories* variant the local source tree is
deleted iff `remove_files_after_upload` is set and the outcome is
`successful` or `no files found`, and no name present on the remote is ever
removed by either variant (remote artifacts are never deleted).  In the
*files* variant every run returns `successful` and, when the flag is set,
each source file is removed immediately after its own `put` — the trace is
exactly put/remove pairs inside the lock, with no verification event of any
kind. -/
theorem removal_policy : ∀ (remove : Bool) (abort : Nat → Bool) (nm : FileName → Bool)
    (loc : LocalDir) (rem : RemoteDir),
    (loc.present = true →
      ((upload_date_directory remove abort loc rem).loc.present = false ↔
        remove = true ∧ ((upload_date_directory remove abort loc rem).outcome = .successful
          ∨ (upload_date_directory remove abort loc rem).outcome = .noFilesFound)))
    ∧ (∀ n, n ∈ fileNames rem.files →
        n ∈ fileNames (upload_date_directory remove abort loc rem).rem.files)
    ∧ (∀ n, n ∈ fileNames rem.files →
        n ∈ fileNames (upload_date_files remove nm loc rem).rem.files)
    ∧ (upload_date_files remove nm loc rem).outcome = .successful
    ∧ (upload_date_files remove nm loc rem).trace =
        [Ev.lockAcquire] ++
          filesTraceSpec remove (sortBy strLt ((fileNames loc.files).filter nm)) ++
          [Ev.lockRelease] := by
  intro remove abort nm loc rem
  refine ⟨?_, ?_, ?_, rfl, ?_⟩
  · intro hp
    simp only [upload_date_directory]
    split_ifs with h0 h1 h2 h3 h4 <;> simp_all
  · intro n hn
    simp only [upload_date_directory]
    split_ifs with h0 h1 h2 h3 h4 <;>
      first
        | exact hn
        | exact uploadLoop_rem_names _ _ _ _ _ n hn
  · intro n hn
    simp only [upload_date_files]
    exact filesLoop_rem_names _ _ _ _ _ n hn
  · simp only [upload_date_files]
    rw [filesLoop_trace]
    have hfe : (fileNames loc.files).filter (fun n =>
        nm n && !((match uploadMetaInit false loc.metaFile with
          | .ok l => l
          | .error _ => []).contains n)) = (fileNames loc.files).filter nm := by
      apply List.filter_congr
      intro a _
      simp [uploadMetaInit]
    rw [hfe]

/-- Witness for `removal_policy`: an empty source directory with the
removal flag set is deleted with outcome `no files found`. -/
theorem removal_policy_witness :
    (upload_date_directory true (fun _ => false)
      ⟨true, [], none, false⟩ ⟨true, [], false⟩).loc.present = false := by
  have h := (removal_policy true (fun _ => false) (fun _ => true)
    ⟨true, [], none, false⟩ ⟨true, [], false⟩).1 rfl
  exact h.mpr ⟨rfl, Or.inr (by decide)⟩

/-- The claim "a source file or directory is removed only after verified
equality of the local and remote inventories" is false on the files
variant: in this concrete run the local file `a` is removed (right after
its `put`) although no verification of any kind ever happens — the trace
contains a local removal and no checksum event. -/
theorem removal_policy_counterexample :
    Ev.localRemoveFile "a" ∈
      (upload_date_files true (fun _ => true)
        ⟨true, [("a", [1]), ("b", [2])], none, false⟩ ⟨true, [], false⟩).trace
    ∧ Ev.checksum true ∉
      (upload_date_files true (fun _ => true)
        ⟨true, [("a", [1]), ("b", [2])], none, false⟩ ⟨true, [], false⟩).trace
    ∧ Ev.checksum false ∉
      (upload_date_files true (fun _ => true)
        ⟨true, [("a", [1]), ("b", [2])], none, false⟩ ⟨true, [], false⟩).trace := by
  decide

/-! ## C5 — abort polling -/

/-- C5 (corrected): `should_abort_upload()` is *not* polled between every
two consecutive uploads.  In the directories variant it is polled exactly
once per upload that crosses a 10 % progress decile (a full no-abort run
polls once per decile-crossing index); when a poll answers true the item
ends with outcome `aborted`, both sentinels are released and the trace ends
with the poll followed by the lock release.  The files variant never polls
at all. -/
theorem abort_polling : ∀ (remove : Bool) (abort : Nat → Bool) (nm : FileName → Bool)
    (loc : LocalDir) (rem : RemoteDir),
    (abort = (fun _ => false) →
      pollCount (upload_date_directory remove abort loc rem).trace =
        ((List.range' 1 loc.files.length).filter
          (fun k => decileCross loc.files.length k)).length)
    ∧ ((upload_date_directory remove abort loc rem).outcome = .aborted →
        (upload_date_directory remove abort loc rem).loc.sentinel = false
        ∧ (upload_date_directory remove abort loc rem).rem.sentinel = false
        ∧ ∃ pre, (upload_date_directory remove abort loc rem).trace =
            pre ++ [Ev.poll true, Ev.lockRelease])
    ∧ pollCount (upload_date_files remove nm loc rem).trace = 0 := by
  intro remove abort nm loc rem
  refine ⟨?_, ?_, ?_⟩
  · rintro rfl
    simp only [upload_date_directory]
    simp only [show (match uploadMetaInit false loc.metaFile with
      | Except.ok l => l
      | Except.error _ => []) = ([] : List FileName) from rfl]
    rw [show (fileNames loc.files).filter (fun n => !(([] : List FileName).contains n)) =
        fileNames loc.files from List.filter_eq_self.mpr (fun a _ => by simp)]
    have hlen : (sortBy strLt (fileNames loc.files)).length = loc.files.length := by
      rw [length_sortBy]
      simp [fileNames]
    have hfl := uploadLoop_noabort loc.files loc.files.length
      (sortBy strLt (fileNames loc.files)) (⟨rem.files, [], 0⟩ : LoopSt)
    have hpc : pollCount (uploadLoop (fun _ => false) loc.files loc.files.length
        (sortBy strLt (fileNames loc.files)) (⟨rem.files, [], 0⟩ : LoopSt)).2.2 =
        ((List.range' 1 loc.files.length).filter
          (fun k => decileCross loc.files.length k)).length := by
      have h := hfl.2.2
      simpa [hlen] using h
    split_ifs <;> simp_all [pollCount]
  · intro hab
    simp only [upload_date_directory] at hab ⊢
    by_cases h0 : loc.files.length = 0
    · rw [if_pos h0] at hab
      split_ifs at hab
    · rw [if_neg h0] at hab ⊢
      set L := uploadLoop abort loc.files loc.files.length
        (sortBy strLt ((fileNames loc.files).filter (fun n =>
          !((match uploadMetaInit false loc.metaFile with
            | Except.ok l => l
            | Except.error _ => []).contains n))))
        (⟨rem.files, (match uploadMetaInit false loc.metaFile with
          | Except.ok l => l
          | Except.error _ => []), 0⟩ : LoopSt) with hL
      cases hf : L.1
      · rw [hf] at hab
        simp only [Bool.false_eq_true, if_false] at hab
        split_ifs at hab
      · have hf' : (uploadLoop abort loc.files loc.files.length
            (sortBy strLt ((fileNames loc.files).filter (fun n =>
              !((match uploadMetaInit false loc.metaFile with
                | Except.ok l => l
                | Except.error _ => []).contains n))))
            (⟨rem.files, (match uploadMetaInit false loc.metaFile with
              | Except.ok l => l
              | Except.error _ => []), 0⟩ : LoopSt)).1 = true := by
          rw [← hL]
          exact hf
        obtain ⟨pre, hpre⟩ := uploadLoop_abort_suffix _ _ _ _ _ hf'
        rw [← hL] at hpre
        rw [if_pos (show true = true from rfl)]
        refine ⟨rfl, rfl,
          (if rem.dirExists then ([] : List Ev) else [Ev.remoteMkdir]) ++ [Ev.lockAcquire] ++ pre,
          ?_⟩
        dsimp only
        rw [hpre]
        simp
  · simp only [upload_date_files]
    rw [filesLoop_trace]
    rw [pollCount_append, pollCount_append, pollCount_filesTraceSpec]
    rfl

/-- Witness for `abort_polling`: a two-file directory with a never-aborting
callback polls at both decile crossings. -/
theorem abort_polling_witness :
    pollCount (upload_date_directory false (fun _ => false)
        ⟨true, [("a", [1]), ("b", [2])], none, false⟩ ⟨true, [], false⟩).trace =
      ((List.range' 1 2).filter (fun k => decileCross 2 k)).length := by
  have h := (abort_polling false (fun _ => false) (fun _ => true)
    ⟨true, [("a", [1]), ("b", [2])], none, false⟩ ⟨true, [], false⟩).1 rfl
  exact h

/-- The claim "`should_abort()` is polled between every two consecutive
file uploads" is false: with 12 source files and a callback that always
answers true, the first two puts happen back-to-back with no poll between
them (the first poll only comes after the second upload crosses the 10 %
decile), and the run then aborts. -/
theorem abort_polling_counterexample :
    (upload_date_directory false (fun _ => true)
        ⟨true, [("f01", []), ("f02", []), ("f03", []), ("f04", []), ("f05", []), ("f06", []),
          ("f07", []), ("f08", []), ("f09", []), ("f10", []), ("f11", []), ("f12", [])],
          none, false⟩ ⟨true, [], false⟩).trace =
      [Ev.lockAcquire, Ev.put "f01", Ev.put "f02", Ev.poll true, Ev.lockRelease]
    ∧ (upload_date_directory false (fun _ => true)
        ⟨true, [("f01", []), ("f02", []), ("f03", []), ("f04", []), ("f05", []), ("f06", []),
          ("f07", []), ("f08", []), ("f09", []), ("f10", []), ("f11", []), ("f12", [])],
          none, false⟩ ⟨true, [], false⟩).outcome = .aborted := by
  decide

/-! ## C7 — behaviour of an immediately repeated run -/

/-- C7 (corrected): the engine derives nothing from the remote inventory or
the persisted `upload-meta.json`: the sequence of `put` calls of a
directory run is identical for any two remote states, and a run with a
never-aborting callback puts *every* source file (in sorted order) — so a
second run over an already fully transferred item re-uploads all files
rather than zero.  It does report `successful` again: with a non-empty
source whose remote copy already equals the local directory, the run ends
`successful` (after re-putting everything).  `UploadMeta.init` never loads
the stored meta because it tests `os.path.isfile` on a directory path. -/
theorem rerun_behaviour : ∀ (remove : Bool) (abort : Nat → Bool) (loc : LocalDir)
    (rem rem' : RemoteDir),
    (putNames (upload_date_directory remove abort loc rem).trace =
      putNames (upload_date_directory remove abort loc rem').trace)
    ∧ (abort = (fun _ => false) →
        putNames (upload_date_directory remove abort loc rem).trace =
          sortBy strLt (fileNames loc.files))
    ∧ (abort = (fun _ => false) → (fileNames loc.files).Nodup → rem.files = loc.files →
        loc.files ≠ [] →
        (upload_date_directory remove abort loc rem).outcome = .successful) := by
  intro remove abort loc rem rem'
  refine ⟨?_, ?_, ?_⟩
  · rw [upload_dir_putNames, upload_dir_putNames]
    by_cases h0 : loc.files.length = 0
    · rw [if_pos h0, if_pos h0]
    · rw [if_neg h0, if_neg h0]
      exact congrArg putNames ((uploadLoop_indep_rem abort loc.files loc.files.length
        (sortBy strLt ((fileNames loc.files).filter (fun n =>
          !((match uploadMetaInit false loc.metaFile with
            | Except.ok l => l
            | Except.error _ => []).contains n))))
        (⟨rem.files, (match uploadMetaInit false loc.metaFile with
          | Except.ok l => l
          | Except.error _ => []), 0⟩ : LoopSt)
        (⟨rem'.files, (match uploadMetaInit false loc.metaFile with
          | Except.ok l => l
          | Except.error _ => []), 0⟩ : LoopSt) rfl rfl).2)
  · rintro rfl
    rw [upload_dir_putNames]
    by_cases h0 : loc.files.length = 0
    · rw [if_pos h0]
      have hfe : loc.files = [] := List.length_eq_zero.mp h0
      simp [hfe, fileNames, sortBy]
    · rw [if_neg h0]
      rw [(uploadLoop_noabort _ _ _ _).2.1]
      congr 1
      exact List.filter_eq_self.mpr (fun a _ => by simp [uploadMetaInit])
  · rintro rfl hnd hremeq hne
    simp only [upload_date_directory]
    rw [if_neg (fun h => hne (List.length_eq_zero.mp h))]
    simp only [show (match uploadMetaInit false loc.metaFile with
      | Except.ok l => l
      | Except.error _ => []) = ([] : List FileName) from rfl]
    rw [show (fileNames loc.files).filter (fun n => !(([] : List FileName).contains n)) =
        fileNames loc.files from List.filter_eq_self.mpr (fun a _ => by simp)]
    rw [hremeq]
    have hflag := (uploadLoop_noabort loc.files loc.files.length
      (sortBy strLt (fileNames loc.files)) (⟨loc.files, [], 0⟩ : LoopSt)).1
    have hrem := uploadLoop_rem_fixed (fun _ => false) loc.files loc.files.length hnd
      (sortBy strLt (fileNames loc.files)) (⟨loc.files, [], 0⟩ : LoopSt)
      (fun f hf => mem_sortBy.mp hf) rfl
    rw [hflag]
    simp only [Bool.false_eq_true, if_false]
    rw [hrem]
    split_ifs <;> first | rfl | simp_all

/-- Witness for `rerun_behaviour`: a fully transferred two-file item still
ends `successful` on the repeat run. -/
theorem rerun_behaviour_witness :
    (upload_date_directory false (fun _ => false)
      ⟨true, [("a", [1]), ("b", [2])], some ["a", "b"], false⟩
      ⟨true, [("a", [1]), ("b", [2])], false⟩).outcome = .successful := by
  have h := (rerun_behaviour false (fun _ => false)
    ⟨true, [("a", [1]), ("b", [2])], some ["a", "b"], false⟩
    ⟨true, [("a", [1]), ("b", [2])], false⟩ ⟨true, [], false⟩).2.2 rfl
    (by decide) rfl (by decide)
  exact h

/-- The claim "an immediately following second run uploads zero files" is
false: after a successful first run (remove flag off), the second run over
the unchanged source and remote performs one `put` per file again — its
trace contains the puts `a` and `b` — although it reports `successful`. -/
theorem rerun_behaviour_counterexample :
    (upload_date_directory false (fun _ => false)
      ⟨true, [("a", [1]), ("b", [2])], none, false⟩ ⟨true, [], false⟩).outcome = .successful
    ∧ putNames (upload_date_directory false (fun _ => false)
        (upload_date_directory false (fun _ => false)
          ⟨true, [("a", [1]), ("b", [2])], none, false⟩ ⟨true, [], false⟩).loc
        (upload_date_directory false (fun _ => false)
          ⟨true, [("a", [1]), ("b", [2])], none, false⟩ ⟨true, [], false⟩).rem).trace =
      ["a", "b"]
    ∧ (upload_date_directory false (fun _ => false)
        (upload_date_directory false (fun _ => false)
          ⟨true, [("a", [1]), ("b", [2])], none, false⟩ ⟨true, [], false⟩).loc
        (upload_date_directory false (fun _ => false)
          ⟨true, [("a", [1]), ("b", [2])], none, false⟩ ⟨true, [], false⟩).rem).outcome =
      .successful := by
  decide

end Circadian
